import Mathlib

/-!
Shallow embedding of `src/lpe.py`, the entropy-extraction pipeline
`rtsp_trng(rtsp_url, num_bytes)`.

External collaborators are modelled as parameters or traces:
* `cv2.VideoCapture` / `cap.read()` — a boolean `opened` flag and a finite
  trace of read events; each event either delivers a frame (already reduced
  to its flattened grayscale buffer, since `cv2.cvtColor(..).flatten()` is a
  deterministic library transformation) or fails (`ret == False`).
  A `cancel` event models a `KeyboardInterrupt` arriving between loop
  iterations.
* `hashlib.sha256(..).digest()` — an arbitrary digest function
  `sha256 : List Nat → List Nat`; the facts proved below depend only on its
  documented output width, carried as the hypothesis
  `∀ xs, (sha256 xs).length = 32`.
* `np.random.choice(gray, size=512, replace=False)` — per the numpy
  documentation this draws 512 elements at distinct positions, chosen by the
  global PRNG independently of the array's contents, and raises `ValueError`
  when the population is smaller than 512.  It is modelled by a
  Fisher-Yates-style selection of 512 distinct indices driven by a PRNG
  stream `rng : Nat → Nat`, returning `none` in the `ValueError` case.
* `time.time()` — each read event carries the elapsed time (in seconds since
  `start_time`) that the deadline check of that iteration would observe.
-/

namespace LPE

/-- A frame delivered by `cap.read()`, reduced to the flattened grayscale
buffer `gray = cv2.cvtColor(frame, cv2.COLOR_BGR2GRAY).flatten()`. -/
structure Frame where
  gray : List Nat
  deriving Repr, DecidableEq

/-- Fisher-Yates-style shuffle driven by the PRNG stream `rng`: at each
step pick the element at position `rng step % l.length` and recurse on
the remainder.  Models the permutation underlying numpy's
without-replacement draw. -/
def fyShuffle (rng : Nat → Nat) (step : Nat) (l : List Nat) : List Nat :=
  match l with
  | [] => []
  | a :: t =>
    (a :: t).getD (rng step % (a :: t).length) 0 ::
      fyShuffle rng (step + 1) ((a :: t).eraseIdx (rng step % (a :: t).length))
termination_by l.length
decreasing_by
  have hi : rng step % (a :: t).length < (a :: t).length := Nat.mod_lt _ (by simp)
  have h2 := List.length_eraseIdx_add_one hi
  omega

/-- Model of `np.random.choice(a, size=k, replace=False)` restricted to the
index selection: `k` distinct positions of a buffer of length `m`, or `none`
(the `ValueError` case) when the population `m` is smaller than `k`. -/
def sampleIndices (rng : Nat → Nat) (m k : Nat) : Option (List Nat) :=
  if k ≤ m then some ((fyShuffle rng 0 (List.range m)).take k) else none

/-- `pixels = np.random.choice(gray, size=512, replace=False)` in
`src/lpe.py` line 34: the 512 sampled pixel values, or `none` when the
buffer holds fewer than 512 pixels (numpy raises `ValueError`). -/
def samplePixels (rng : Nat → Nat) (gray : List Nat) : Option (List Nat) :=
  (sampleIndices rng gray.length 512).map (List.map (fun i => gray.getD i 0))

theorem getD_cons_eraseIdx_perm :
    ∀ (l : List Nat) (i : Nat), i < l.length →
      List.Perm (l.getD i 0 :: l.eraseIdx i) l := by
  intro l
  induction l with
  | nil => intro i h; simp at h
  | cons a t ih =>
    intro i h
    cases i with
    | zero => simp
    | succ j =>
      have hj : j < t.length := by simpa using h
      simp only [List.getD_cons_succ, List.eraseIdx_cons_succ]
      exact (List.Perm.swap a (t.getD j 0) (t.eraseIdx j)).trans ((ih j hj).cons a)

theorem fyShuffle_perm (rng : Nat → Nat) :
    ∀ (n : Nat) (l : List Nat) (step : Nat), l.length ≤ n →
      List.Perm (fyShuffle rng step l) l := by
  intro n
  induction n with
  | zero =>
    intro l step h
    have hl : l = [] := List.length_eq_zero.mp (Nat.le_zero.mp h)
    subst hl
    rw [fyShuffle.eq_def]
  | succ n ih =>
    intro l step h
    match l with
    | [] => rw [fyShuffle.eq_def]
    | a :: t =>
      rw [fyShuffle.eq_def]
      have hi : rng step % (a :: t).length < (a :: t).length :=
        Nat.mod_lt _ (by simp)
      have hlen : ((a :: t).eraseIdx (rng step % (a :: t).length)).length ≤ n := by
        have h2 := List.length_eraseIdx_add_one hi
        omega
      exact ((ih _ _ hlen).cons _).trans (getD_cons_eraseIdx_perm _ _ hi)

theorem fyShuffle_perm_self (rng : Nat → Nat) (step : Nat) (l : List Nat) :
    List.Perm (fyShuffle rng step l) l :=
  fyShuffle_perm rng l.length l step le_rfl

theorem sampleIndices_spec (rng : Nat → Nat) (m : Nat) (h : 512 ≤ m) :
    ∃ idxs : List Nat,
      sampleIndices rng m 512 = some idxs ∧
      idxs.length = 512 ∧ idxs.Nodup ∧ ∀ i ∈ idxs, i < m := by
  refine ⟨(fyShuffle rng 0 (List.range m)).take 512, ?_, ?_, ?_, ?_⟩
  · simp [sampleIndices, h]
  · have hp := (fyShuffle_perm_self rng 0 (List.range m)).length_eq
    rw [List.length_take, hp, List.length_range]
    omega
  · exact ((List.take_sublist _ _).nodup
      (((fyShuffle_perm_self rng 0 (List.range m)).nodup_iff).mpr (List.nodup_range m)))
  · intro i hi
    have h1 : i ∈ fyShuffle rng 0 (List.range m) := List.mem_of_mem_take hi
    have h2 : i ∈ List.range m :=
      (fyShuffle_perm_self rng 0 (List.range m)).mem_iff.mp h1
    exact List.mem_range.mp h2

/-- One observable event of the capture loop: either a `KeyboardInterrupt`
arriving between loop iterations (`cancel`), or one `cap.read()` call
(`read`), whose `res` is the delivered frame (`none` models `ret == False`)
and whose `elapsed` is the value of `time.time() - start_time` that the
deadline check of this iteration would observe. -/
inductive Event where
  | cancel : Event
  | read : Option Frame → Nat → Event
  deriving Repr, DecidableEq

/-- How the `while` loop of `rtsp_trng` was left. -/
inductive LoopExit where
  /-- the `while` condition `len(entropy_pool) < num_bytes * 4` became false -/
  | normal : LoopExit
  /-- `break` after `time.time() - start_time > 5` -/
  | deadline : LoopExit
  /-- `KeyboardInterrupt` caught by the `except` clause -/
  | cancelled : LoopExit
  /-- `ValueError` raised by `np.random.choice` (population below 512) -/
  | sampleFail : LoopExit
  /-- the event trace is exhausted while the loop still wants to iterate:
  the real loop would still be running -/
  | outOfEvents : LoopExit
  deriving Repr, DecidableEq

/-- Result of the capture loop: how it exited, the final `entropy_pool`,
how many `cap.read()` calls and digest-append steps ran, and the successive
values of `entropy_pool` (`snaps`, starting with the pool at loop entry). -/
structure LoopRes where
  exit : LoopExit
  pool : List Nat
  reads : Nat
  digests : Nat
  snaps : List (List Nat)
  deriving Repr

/-- The `while len(entropy_pool) < num_bytes * 4` loop of `rtsp_trng`
(`src/lpe.py` lines 25-38), driven by the event trace.  `sha256` is the
digest function, `rng d` the PRNG stream consumed by the `d`-th call of
`np.random.choice`.  Mirrors the source: a failed read `continue`s without
consulting the clock; the deadline is only checked after a digest was
appended; a `KeyboardInterrupt` is observed between iterations. -/
def runLoop (sha256 : List Nat → List Nat) (rng : Nat → Nat → Nat)
    (num_bytes : Nat) : List Event → List Nat → Nat → Nat → LoopRes
  | events, pool, reads, digests =>
    if pool.length < num_bytes * 4 then
      match events with
      | [] => ⟨.outOfEvents, pool, reads, digests, [pool]⟩
      | .cancel :: _ => ⟨.cancelled, pool, reads, digests, [pool]⟩
      | .read none _ :: rest =>
        let r := runLoop sha256 rng num_bytes rest pool (reads + 1) digests
        { r with snaps := pool :: r.snaps }
      | .read (some f) elapsed :: rest =>
        match samplePixels (rng digests) f.gray with
        | none => ⟨.sampleFail, pool, reads + 1, digests, [pool]⟩
        | some pixels =>
          if 5 < elapsed then
            ⟨.deadline, pool ++ sha256 pixels, reads + 1, digests + 1,
              [pool, pool ++ sha256 pixels]⟩
          else
            let r := runLoop sha256 rng num_bytes rest (pool ++ sha256 pixels)
              (reads + 1) (digests + 1)
            { r with snaps := pool :: r.snaps }
    else ⟨.normal, pool, reads, digests, [pool]⟩

/-- What `rtsp_trng` does, seen from the caller. -/
inductive ExtractResult where
  /-- the function returned `random_bytes` -/
  | bytes : List Nat → ExtractResult
  /-- `raise Exception("Cannot open RTSP stream. ...")`:
  the `SourceUnavailable` case of the spec -/
  | openFailed : ExtractResult
  /-- a `ValueError` raised by `np.random.choice` propagated to the caller
  (it is not caught by `except KeyboardInterrupt`) -/
  | sampleError : ExtractResult
  /-- the supplied event trace ended before the loop did: the real call
  is still inside the loop and has neither returned nor raised -/
  | stillRunning : ExtractResult
  deriving Repr, DecidableEq

/-- Full observable outcome of one `rtsp_trng` call: the caller-visible
result, how often `cap.release()` ran, how many `cap.read()` calls and
digest steps ran, how the loop exited, the final `entropy_pool`, and the
successive pool values. -/
structure ExtractRes where
  result : ExtractResult
  releases : Nat
  reads : Nat
  digests : Nat
  loopExit : Option LoopExit
  pool : List Nat
  snaps : List (List Nat)
  deriving Repr

/-- `rtsp_trng(rtsp_url, num_bytes)` of `src/lpe.py`.  `opened` is
`cap.isOpened()`; `events` the behaviour of the frame source and of the
user (cancellation).  The `finally: cap.release()` clause runs whenever
the `try` block is left, so every terminating path after a successful
open counts one release; the final
`hashlib.sha256(entropy_pool).digest()[:num_bytes]` also runs after a
caught `KeyboardInterrupt`. -/
def rtsp_trng (sha256 : List Nat → List Nat) (rng : Nat → Nat → Nat)
    (opened : Bool) (events : List Event) (num_bytes : Nat) : ExtractRes :=
  if opened then
    let r := runLoop sha256 rng num_bytes events [] 0 0
    match r.exit with
    | .outOfEvents =>
      ⟨.stillRunning, 0, r.reads, r.digests, some r.exit, r.pool, r.snaps⟩
    | .sampleFail =>
      ⟨.sampleError, 1, r.reads, r.digests, some r.exit, r.pool, r.snaps⟩
    | _ =>
      ⟨.bytes ((sha256 r.pool).take num_bytes), 1, r.reads, r.digests,
        some r.exit, r.pool, r.snaps⟩
  else ⟨.openFailed, 0, 0, 0, none, [], []⟩

/-- Digest stand-in used by concrete witnesses: a fixed 32-byte output,
which is all the verified properties use of `hashlib.sha256`. -/
def sha0 : List Nat → List Nat := fun _ => List.replicate 32 0

/-- PRNG stand-in used by concrete witnesses. -/
def rng0 : Nat → Nat → Nat := fun _ _ => 0

/-- A synthetic frame whose grayscale buffer has 512 pixels. -/
def frame512 : Frame := ⟨List.range 512⟩

section StepEqs

variable {sha256 : List Nat → List Nat} {rng : Nat → Nat → Nat}
  {num_bytes : Nat} {events rest : List Event} {pool : List Nat}
  {reads digests : Nat}

theorem runLoop_stop (h : ¬ pool.length < num_bytes * 4) :
    runLoop sha256 rng num_bytes events pool reads digests
      = ⟨.normal, pool, reads, digests, [pool]⟩ := by
  rw [runLoop.eq_def]
  simp [h]

theorem runLoop_nil (h : pool.length < num_bytes * 4) :
    runLoop sha256 rng num_bytes [] pool reads digests
      = ⟨.outOfEvents, pool, reads, digests, [pool]⟩ := by
  rw [runLoop.eq_def]
  simp [h]

theorem runLoop_cancel (h : pool.length < num_bytes * 4) :
    runLoop sha256 rng num_bytes (Event.cancel :: rest) pool reads digests
      = ⟨.cancelled, pool, reads, digests, [pool]⟩ := by
  rw [runLoop.eq_def]
  simp [h]

theorem runLoop_readFail {e : Nat} (h : pool.length < num_bytes * 4) :
    runLoop sha256 rng num_bytes (Event.read none e :: rest) pool reads digests
      = ⟨(runLoop sha256 rng num_bytes rest pool (reads + 1) digests).exit,
         (runLoop sha256 rng num_bytes rest pool (reads + 1) digests).pool,
         (runLoop sha256 rng num_bytes rest pool (reads + 1) digests).reads,
         (runLoop sha256 rng num_bytes rest pool (reads + 1) digests).digests,
         pool :: (runLoop sha256 rng num_bytes rest pool (reads + 1) digests).snaps⟩ := by
  rw [runLoop.eq_def]
  simp [h]

theorem runLoop_sampleFail {f : Frame} {e : Nat}
    (h : pool.length < num_bytes * 4)
    (hs : samplePixels (rng digests) f.gray = none) :
    runLoop sha256 rng num_bytes (Event.read (some f) e :: rest) pool reads digests
      = ⟨.sampleFail, pool, reads + 1, digests, [pool]⟩ := by
  rw [runLoop.eq_def]
  simp [h, hs]

theorem runLoop_deadline {f : Frame} {e : Nat} {pixels : List Nat}
    (h : pool.length < num_bytes * 4)
    (hs : samplePixels (rng digests) f.gray = some pixels) (he : 5 < e) :
    runLoop sha256 rng num_bytes (Event.read (some f) e :: rest) pool reads digests
      = ⟨.deadline, pool ++ sha256 pixels, reads + 1, digests + 1,
          [pool, pool ++ sha256 pixels]⟩ := by
  rw [runLoop.eq_def]
  simp [h, hs, he]

theorem runLoop_digestStep {f : Frame} {e : Nat} {pixels : List Nat}
    (h : pool.length < num_bytes * 4)
    (hs : samplePixels (rng digests) f.gray = some pixels) (he : ¬ 5 < e) :
    runLoop sha256 rng num_bytes (Event.read (some f) e :: rest) pool reads digests
      = ⟨(runLoop sha256 rng num_bytes rest (pool ++ sha256 pixels)
            (reads + 1) (digests + 1)).exit,
         (runLoop sha256 rng num_bytes rest (pool ++ sha256 pixels)
            (reads + 1) (digests + 1)).pool,
         (runLoop sha256 rng num_bytes rest (pool ++ sha256 pixels)
            (reads + 1) (digests + 1)).reads,
         (runLoop sha256 rng num_bytes rest (pool ++ sha256 pixels)
            (reads + 1) (digests + 1)).digests,
         pool :: (runLoop sha256 rng num_bytes rest (pool ++ sha256 pixels)
            (reads + 1) (digests + 1)).snaps⟩ := by
  rw [runLoop.eq_def]
  simp [h, hs, he]

end StepEqs


def goodFast : Event → Prop
  | .read (some f) e => 512 ≤ f.gray.length ∧ e ≤ 5
  | _ => False

def failedRead : Event → Prop
  | .read none _ => True
  | _ => False

theorem samplePixels_isSome (rng1 : Nat → Nat) (gray : List Nat)
    (h : 512 ≤ gray.length) :
    ∃ pixels, samplePixels rng1 gray = some pixels := by
  obtain ⟨idxs, hidx, -, -, -⟩ := sampleIndices_spec rng1 gray.length h
  simp only [samplePixels, hidx, Option.map_some']
  exact ⟨_, rfl⟩

theorem samplePixels_isNone (rng1 : Nat → Nat) (gray : List Nat)
    (h : gray.length < 512) :
    samplePixels rng1 gray = none := by
  simp [samplePixels, sampleIndices, Nat.not_le.mpr h]

theorem runLoop_snaps_head (sha256 : List Nat → List Nat) (rng : Nat → Nat → Nat)
    (num_bytes : Nat) :
    ∀ (events : List Event) (pool : List Nat) (reads digests : Nat), ∃ t,
      (runLoop sha256 rng num_bytes events pool reads digests).snaps = pool :: t := by
  intro events
  induction events with
  | nil =>
    intro pool reads digests
    by_cases h : pool.length < num_bytes * 4
    · rw [runLoop_nil h]; exact ⟨_, rfl⟩
    · rw [runLoop_stop h]; exact ⟨_, rfl⟩
  | cons ev rest ih =>
    intro pool reads digests
    by_cases h : pool.length < num_bytes * 4
    · match ev with
      | .cancel => rw [runLoop_cancel h]; exact ⟨_, rfl⟩
      | .read none e => rw [runLoop_readFail h]; exact ⟨_, rfl⟩
      | .read (some f) e =>
        cases hs : samplePixels (rng digests) f.gray with
        | none => rw [runLoop_sampleFail h hs]; exact ⟨_, rfl⟩
        | some pixels =>
          by_cases he : 5 < e
          · rw [runLoop_deadline h hs he]; exact ⟨_, rfl⟩
          · rw [runLoop_digestStep h hs he]; exact ⟨_, rfl⟩
    · rw [runLoop_stop h]; exact ⟨_, rfl⟩

theorem runLoop_pool_digests {sha256 : List Nat → List Nat}
    (rng : Nat → Nat → Nat) (num_bytes : Nat)
    (hsha : ∀ xs, (sha256 xs).length = 32) :
    ∀ (events : List Event) (pool : List Nat) (reads digests : Nat),
      (runLoop sha256 rng num_bytes events pool reads digests).pool.length
          + 32 * digests
        = pool.length
          + 32 * (runLoop sha256 rng num_bytes events pool reads digests).digests := by
  intro events
  induction events with
  | nil =>
    intro pool reads digests
    by_cases h : pool.length < num_bytes * 4
    · rw [runLoop_nil h]
    · rw [runLoop_stop h]
  | cons ev rest ih =>
    intro pool reads digests
    by_cases h : pool.length < num_bytes * 4
    · match ev with
      | .cancel => rw [runLoop_cancel h]
      | .read none e =>
        rw [runLoop_readFail h]
        exact ih pool (reads + 1) digests
      | .read (some f) e =>
        cases hs : samplePixels (rng digests) f.gray with
        | none => rw [runLoop_sampleFail h hs]
        | some pixels =>
          by_cases he : 5 < e
          · rw [runLoop_deadline h hs he]
            simp only [List.length_append, hsha]
            omega
          · rw [runLoop_digestStep h hs he]
            have h2 := ih (pool ++ sha256 pixels) (reads + 1) (digests + 1)
            simp only [List.length_append, hsha] at h2
            dsimp only
            omega
    · rw [runLoop_stop h]

theorem runLoop_normal_pool (sha256 : List Nat → List Nat)
    (rng : Nat → Nat → Nat) (num_bytes : Nat) :
    ∀ (events : List Event) (pool : List Nat) (reads digests : Nat),
      (runLoop sha256 rng num_bytes events pool reads digests).exit = .normal →
      num_bytes * 4 ≤ (runLoop sha256 rng num_bytes events pool reads digests).pool.length := by
  intro events
  induction events with
  | nil =>
    intro pool reads digests hx
    by_cases h : pool.length < num_bytes * 4
    · rw [runLoop_nil h] at hx; exact absurd hx (by simp)
    · rw [runLoop_stop h]; dsimp only; omega
  | cons ev rest ih =>
    intro pool reads digests hx
    by_cases h : pool.length < num_bytes * 4
    · match ev with
      | .cancel => rw [runLoop_cancel h] at hx; exact absurd hx (by simp)
      | .read none e =>
        rw [runLoop_readFail h] at hx ⊢
        exact ih pool (reads + 1) digests hx
      | .read (some f) e =>
        cases hs : samplePixels (rng digests) f.gray with
        | none => rw [runLoop_sampleFail h hs] at hx; exact absurd hx (by simp)
        | some pixels =>
          by_cases he : 5 < e
          · rw [runLoop_deadline h hs he] at hx; exact absurd hx (by simp)
          · rw [runLoop_digestStep h hs he] at hx ⊢
            exact ih _ (reads + 1) (digests + 1) hx
    · rw [runLoop_stop h]; dsimp only; omega

theorem runLoop_goodFast {sha256 : List Nat → List Nat}
    (rng : Nat → Nat → Nat) (num_bytes : Nat)
    (hsha : ∀ xs, (sha256 xs).length = 32) :
    ∀ (events : List Event) (pool : List Nat) (reads digests : Nat),
      (∀ ev ∈ events, goodFast ev) →
      num_bytes * 4 ≤ pool.length + 32 * events.length →
      (runLoop sha256 rng num_bytes events pool reads digests).exit = .normal := by
  intro events
  induction events with
  | nil =>
    intro pool reads digests _ hlen
    have h : ¬ pool.length < num_bytes * 4 := by
      simp only [List.length_nil, Nat.mul_zero, Nat.add_zero] at hlen
      omega
    rw [runLoop_stop h]
  | cons ev rest ih =>
    intro pool reads digests hgood hlen
    by_cases h : pool.length < num_bytes * 4
    · match ev with
      | .cancel => exact absurd (hgood _ (List.mem_cons_self _ _)) (by simp [goodFast])
      | .read none e => exact absurd (hgood _ (List.mem_cons_self _ _)) (by simp [goodFast])
      | .read (some f) e =>
        obtain ⟨h512, he5⟩ := hgood _ (List.mem_cons_self _ _)
        obtain ⟨pixels, hs⟩ := samplePixels_isSome (rng digests) f.gray h512
        have he : ¬ 5 < e := by omega
        rw [runLoop_digestStep h hs he]
        refine ih (pool ++ sha256 pixels) (reads + 1) (digests + 1)
          (fun ev hev => hgood _ (List.mem_cons_of_mem _ hev)) ?_
        simp only [List.length_append, hsha, List.length_cons] at hlen ⊢
        omega
    · rw [runLoop_stop h]


/-- One observable pool transition: unchanged, or extended by one 32-byte
digest. -/
def poolStep (a b : List Nat) : Prop :=
  b = a ∨ ∃ d : List Nat, d.length = 32 ∧ b = a ++ d

theorem runLoop_failedReads (sha256 : List Nat → List Nat)
    (rng : Nat → Nat → Nat) (num_bytes : Nat) :
    ∀ (pre : List Event), (∀ ev ∈ pre, failedRead ev) →
    ∀ (rest : List Event) (pool : List Nat) (reads digests : Nat),
      pool.length < num_bytes * 4 →
      runLoop sha256 rng num_bytes (pre ++ rest) pool reads digests
        = ⟨(runLoop sha256 rng num_bytes rest pool (reads + pre.length) digests).exit,
           (runLoop sha256 rng num_bytes rest pool (reads + pre.length) digests).pool,
           (runLoop sha256 rng num_bytes rest pool (reads + pre.length) digests).reads,
           (runLoop sha256 rng num_bytes rest pool (reads + pre.length) digests).digests,
           List.replicate pre.length pool
             ++ (runLoop sha256 rng num_bytes rest pool (reads + pre.length) digests).snaps⟩ := by
  intro pre
  induction pre with
  | nil =>
    intro _ rest pool reads digests h
    simp
  | cons ev pre' ih =>
    intro hpre rest pool reads digests h
    match ev with
    | .cancel => exact absurd (hpre _ (List.mem_cons_self _ _)) (by simp [failedRead])
    | .read (some f) e =>
      exact absurd (hpre _ (List.mem_cons_self _ _)) (by simp [failedRead])
    | .read none e =>
      rw [List.cons_append, runLoop_readFail h,
        ih (fun ev hev => hpre _ (List.mem_cons_of_mem _ hev)) rest pool (reads + 1) digests h]
      have harith : reads + 1 + pre'.length = reads + (pre'.length + 1) := by omega
      simp [harith, List.replicate_succ]

theorem runLoop_snaps_chain {sha256 : List Nat → List Nat}
    (rng : Nat → Nat → Nat) (num_bytes : Nat)
    (hsha : ∀ xs, (sha256 xs).length = 32) :
    ∀ (events : List Event) (pool : List Nat) (reads digests : Nat),
      List.Chain' poolStep
        (runLoop sha256 rng num_bytes events pool reads digests).snaps := by
  intro events
  induction events with
  | nil =>
    intro pool reads digests
    by_cases h : pool.length < num_bytes * 4
    · rw [runLoop_nil h]; exact List.chain'_singleton _
    · rw [runLoop_stop h]; exact List.chain'_singleton _
  | cons ev rest ih =>
    intro pool reads digests
    by_cases h : pool.length < num_bytes * 4
    · match ev with
      | .cancel => rw [runLoop_cancel h]; exact List.chain'_singleton _
      | .read none e =>
        rw [runLoop_readFail h]
        dsimp only
        obtain ⟨t, ht⟩ := runLoop_snaps_head sha256 rng num_bytes rest pool (reads + 1) digests
        rw [ht, List.chain'_cons]
        exact ⟨Or.inl rfl, ht ▸ ih pool (reads + 1) digests⟩
      | .read (some f) e =>
        cases hs : samplePixels (rng digests) f.gray with
        | none => rw [runLoop_sampleFail h hs]; exact List.chain'_singleton _
        | some pixels =>
          by_cases he : 5 < e
          · rw [runLoop_deadline h hs he]
            dsimp only
            rw [List.chain'_cons]
            exact ⟨Or.inr ⟨sha256 pixels, hsha pixels, rfl⟩, List.chain'_singleton _⟩
          · rw [runLoop_digestStep h hs he]
            dsimp only
            obtain ⟨t, ht⟩ := runLoop_snaps_head sha256 rng num_bytes rest
              (pool ++ sha256 pixels) (reads + 1) (digests + 1)
            rw [ht, List.chain'_cons]
            exact ⟨Or.inr ⟨sha256 pixels, hsha pixels, rfl⟩,
              ht ▸ ih (pool ++ sha256 pixels) (reads + 1) (digests + 1)⟩
    · rw [runLoop_stop h]; exact List.chain'_singleton _


/-- C6: for every source identifier that cannot be opened, `rtsp_trng` fails
immediately with the open-failure exception (`SourceUnavailable`), performs
zero frame reads, never digests, never releases, and produces no partial
output. -/
theorem claim6_source_unavailable (sha256 : List Nat → List Nat)
    (rng : Nat → Nat → Nat) (events : List Event) (num_bytes : Nat) :
    rtsp_trng sha256 rng false events num_bytes
      = ⟨.openFailed, 0, 0, 0, none, [], []⟩ := by
  rw [rtsp_trng]
  simp

/-- C5: whenever the source opened successfully and the loop terminated (by
any of its four exits: pool threshold, deadline, cancellation, sampling
error), `cap.release()` ran exactly once. -/
theorem claim5_release_exactly_once (sha256 : List Nat → List Nat)
    (rng : Nat → Nat → Nat) (events : List Event) (num_bytes : Nat)
    (ex : LoopExit)
    (hex : (rtsp_trng sha256 rng true events num_bytes).loopExit = some ex)
    (hterm : ex ≠ LoopExit.outOfEvents) :
    (rtsp_trng sha256 rng true events num_bytes).releases = 1 := by
  cases hx : (runLoop sha256 rng num_bytes events [] 0 0).exit with
  | outOfEvents =>
    rw [rtsp_trng] at hex
    simp only [if_true, hx] at hex
    exact absurd (Option.some.inj hex.symm) hterm
  | normal => rw [rtsp_trng]; simp [hx]
  | deadline => rw [rtsp_trng]; simp [hx]
  | cancelled => rw [rtsp_trng]; simp [hx]
  | sampleFail => rw [rtsp_trng]; simp [hx]

/-- Witness for C5 at a concrete cancelled run. -/
theorem claim5_witness :
    (rtsp_trng sha0 rng0 true [Event.cancel] 32).loopExit
        = some LoopExit.cancelled
    ∧ LoopExit.cancelled ≠ LoopExit.outOfEvents
    ∧ (rtsp_trng sha0 rng0 true [Event.cancel] 32).releases = 1 :=
  ⟨by decide, by decide,
    claim5_release_exactly_once sha0 rng0 [Event.cancel] 32
      LoopExit.cancelled (by decide) (by decide)⟩

/-- C8: for every successfully read frame whose grayscale buffer holds at
least 512 pixels, the sample set is drawn without replacement: the 512
sampled values sit at 512 distinct in-range positions of the flattened
buffer, and the chosen positions are a function of the PRNG stream and the
buffer length alone, independent of the pixel values. -/
theorem claim8_sampling_without_replacement (rng1 : Nat → Nat)
    (gray : List Nat) (h : 512 ≤ gray.length) :
    ∃ idxs : List Nat,
      sampleIndices rng1 gray.length 512 = some idxs
      ∧ idxs.length = 512 ∧ idxs.Nodup ∧ (∀ i ∈ idxs, i < gray.length)
      ∧ samplePixels rng1 gray = some (idxs.map (fun i => gray.getD i 0))
      ∧ ∀ gray2 : List Nat, gray2.length = gray.length →
          sampleIndices rng1 gray2.length 512 = some idxs := by
  obtain ⟨idxs, h1, h2, h3, h4⟩ := sampleIndices_spec rng1 gray.length h
  refine ⟨idxs, h1, h2, h3, h4, ?_, ?_⟩
  · simp [samplePixels, h1]
  · intro gray2 hg
    rw [hg, h1]

/-- Witness for C8 on a 600-pixel buffer. -/
theorem claim8_witness :
    512 ≤ (List.range 600).length
    ∧ ∃ idxs : List Nat,
      sampleIndices (rng0 0) (List.range 600).length 512 = some idxs
      ∧ idxs.length = 512 ∧ idxs.Nodup ∧ (∀ i ∈ idxs, i < (List.range 600).length)
      ∧ samplePixels (rng0 0) (List.range 600) = some (idxs.map (fun i => (List.range 600).getD i 0))
      ∧ ∀ gray2 : List Nat, gray2.length = (List.range 600).length →
          sampleIndices (rng0 0) gray2.length 512 = some idxs :=
  ⟨by simp, claim8_sampling_without_replacement (rng0 0) (List.range 600) (by simp)⟩

/-- C9: throughout every run the entropy pool only grows: each successive
pool snapshot is either unchanged or the previous pool extended by one
32-byte digest; nothing is truncated, reordered, or removed before
finalization. -/
theorem claim9_pool_monotone (sha256 : List Nat → List Nat)
    (rng : Nat → Nat → Nat) (opened : Bool) (events : List Event)
    (num_bytes : Nat) (hsha : ∀ xs, (sha256 xs).length = 32) :
    List.Chain' poolStep (rtsp_trng sha256 rng opened events num_bytes).snaps := by
  cases opened with
  | false =>
    rw [rtsp_trng]
    simp
  | true =>
    have hsn : (rtsp_trng sha256 rng true events num_bytes).snaps
        = (runLoop sha256 rng num_bytes events [] 0 0).snaps := by
      rw [rtsp_trng]
      cases hx : (runLoop sha256 rng num_bytes events [] 0 0).exit <;> simp [hx]
    rw [hsn]
    exact runLoop_snaps_chain rng num_bytes hsha events [] 0 0

set_option maxRecDepth 4000 in
/-- Witness for C9 on a concrete run with one digest step and a
cancellation. -/
theorem claim9_witness :
    List.Chain' poolStep
      (rtsp_trng sha0 rng0 true [Event.read (some frame512) 0, Event.cancel] 32).snaps :=
  claim9_pool_monotone sha0 rng0 true [Event.read (some frame512) 0, Event.cancel] 32
    (fun xs => by simp [sha0])


/-- C1 (code evaluated at the failing input): whenever `rtsp_trng` returns
bytes, it returns `sha256(pool)[:num_bytes]`, whose length is
`min num_bytes 32` — for `num_bytes > 32` the result is shorter than
requested and no error is raised, contradicting the requested-length
contract. -/
theorem claim1_result_never_exceeds_32 {sha256 : List Nat → List Nat}
    {rng : Nat → Nat → Nat} {opened : Bool} {events : List Event}
    {num_bytes : Nat} {bs : List Nat}
    (hsha : ∀ xs, (sha256 xs).length = 32)
    (hres : (rtsp_trng sha256 rng opened events num_bytes).result
      = ExtractResult.bytes bs) :
    bs.length = min num_bytes 32 := by
  cases opened with
  | false =>
    rw [rtsp_trng] at hres
    simp at hres
  | true =>
    cases hx : (runLoop sha256 rng num_bytes events [] 0 0).exit with
    | outOfEvents =>
      rw [rtsp_trng] at hres
      simp [hx] at hres
    | sampleFail =>
      rw [rtsp_trng] at hres
      simp [hx] at hres
    | normal =>
      rw [rtsp_trng] at hres
      simp [hx] at hres
      rw [← hres, List.length_take, hsha]
    | deadline =>
      rw [rtsp_trng] at hres
      simp [hx] at hres
      rw [← hres, List.length_take, hsha]
    | cancelled =>
      rw [rtsp_trng] at hres
      simp [hx] at hres
      rw [← hres, List.length_take, hsha]

/-- Witness for C1: requesting 64 bytes yields only `min 64 32 = 32`
bytes. -/
theorem claim1_witness :
    (rtsp_trng sha0 rng0 true [Event.cancel] 64).result
        = ExtractResult.bytes ((sha0 []).take 64)
    ∧ ((sha0 []).take 64).length = min 64 32 := by
  have h : (rtsp_trng sha0 rng0 true [Event.cancel] 64).result
      = ExtractResult.bytes ((sha0 []).take 64) := by decide
  exact ⟨h, claim1_result_never_exceeds_32 (fun xs => by simp [sha0]) h⟩

/-- C2 (code evaluated at the failing input): a run that terminates (by
cancellation) with an empty entropy pool does not fail with a
`NoEntropyCollected` error; it returns `sha256(b"")[:num_bytes]`, a fixed
deterministic byte string. -/
theorem claim2_empty_pool_returns_bytes (sha256 : List Nat → List Nat)
    (rng : Nat → Nat → Nat) (num_bytes : Nat) (h : 0 < num_bytes) :
    rtsp_trng sha256 rng true [Event.cancel] num_bytes
      = ⟨ExtractResult.bytes ((sha256 []).take num_bytes), 1, 0, 0,
          some LoopExit.cancelled, [], [[]]⟩ := by
  have h4 : ([] : List Nat).length < num_bytes * 4 := by
    simp
    omega
  rw [rtsp_trng]
  simp [runLoop_cancel h4]

/-- Witness for C2 at `num_bytes = 32`. -/
theorem claim2_witness :
    0 < 32
    ∧ rtsp_trng sha0 rng0 true [Event.cancel] 32
      = ⟨ExtractResult.bytes ((sha0 []).take 32), 1, 0, 0,
          some LoopExit.cancelled, [], [[]]⟩ :=
  ⟨by decide, claim2_empty_pool_returns_bytes sha0 rng0 32 (by decide)⟩

/-- C3 (code evaluated at the failing input): against a source whose every
read fails, the loop never consults the deadline, so after any number of
failed reads — however much time has passed — the call has neither
returned nor released the source: the retry loop is unbounded. -/
theorem claim3_failed_source_never_terminates (sha256 : List Nat → List Nat)
    (rng : Nat → Nat → Nat) (num_bytes : Nat) (ts : List Nat)
    (h : 0 < num_bytes) :
    (rtsp_trng sha256 rng true (ts.map (fun e => Event.read none e)) num_bytes).result
        = ExtractResult.stillRunning
    ∧ (rtsp_trng sha256 rng true (ts.map (fun e => Event.read none e)) num_bytes).reads
        = ts.length
    ∧ (rtsp_trng sha256 rng true (ts.map (fun e => Event.read none e)) num_bytes).releases
        = 0 := by
  have h4 : ([] : List Nat).length < num_bytes * 4 := by
    simp
    omega
  have hpre : ∀ ev ∈ ts.map (fun e => Event.read none e), failedRead ev := by
    intro ev hev
    obtain ⟨e, -, rfl⟩ := List.mem_map.mp hev
    trivial
  have hrun := runLoop_failedReads sha256 rng num_bytes _ hpre [] [] 0 0 h4
  rw [List.append_nil, runLoop_nil h4] at hrun
  refine ⟨?_, ?_, ?_⟩ <;>
    · rw [rtsp_trng]
      simp [hrun]

/-- Witness for C3: three failed reads at elapsed times far past the
5-second deadline leave the call still running with zero releases. -/
theorem claim3_witness :
    0 < 32
    ∧ ((rtsp_trng sha0 rng0 true ([6, 7, 100].map (fun e => Event.read none e)) 32).result
          = ExtractResult.stillRunning
        ∧ (rtsp_trng sha0 rng0 true ([6, 7, 100].map (fun e => Event.read none e)) 32).reads
          = ([6, 7, 100] : List Nat).length
        ∧ (rtsp_trng sha0 rng0 true ([6, 7, 100].map (fun e => Event.read none e)) 32).releases
          = 0) :=
  ⟨by decide, claim3_failed_source_never_terminates sha0 rng0 32 [6, 7, 100] (by decide)⟩


set_option maxRecDepth 4000 in
/-- Counterexample to C4: a run interrupted by cancellation after one
successful frame releases the source but does NOT surface a cancellation
error — it returns bytes whitened from the partially accumulated pool. -/
theorem claim4_counterexample :
    (rtsp_trng sha0 rng0 true [Event.read (some frame512) 0, Event.cancel] 32).loopExit
        = some LoopExit.cancelled
    ∧ (rtsp_trng sha0 rng0 true [Event.read (some frame512) 0, Event.cancel] 32).result
        = ExtractResult.bytes (List.replicate 32 0) := by
  constructor <;> simp [rtsp_trng, runLoop, samplePixels, sampleIndices, frame512, sha0]

/-- C4 (amended): for every run interrupted by cancellation, `rtsp_trng`
releases the frame source and then returns the whitened partial pool
`sha256(pool)[:num_bytes]` — no error is surfaced and the pool is not
discarded. -/
theorem claim4_cancelled_run_returns_pool (sha256 : List Nat → List Nat)
    (rng : Nat → Nat → Nat) (events : List Event) (num_bytes : Nat)
    (hc : (rtsp_trng sha256 rng true events num_bytes).loopExit
      = some LoopExit.cancelled) :
    (rtsp_trng sha256 rng true events num_bytes).releases = 1
    ∧ (rtsp_trng sha256 rng true events num_bytes).result
        = ExtractResult.bytes
            ((sha256 (rtsp_trng sha256 rng true events num_bytes).pool).take num_bytes) := by
  cases hx : (runLoop sha256 rng num_bytes events [] 0 0).exit with
  | cancelled =>
    rw [rtsp_trng]
    simp [hx]
  | normal =>
    rw [rtsp_trng] at hc
    simp [hx] at hc
  | deadline =>
    rw [rtsp_trng] at hc
    simp [hx] at hc
  | sampleFail =>
    rw [rtsp_trng] at hc
    simp [hx] at hc
  | outOfEvents =>
    rw [rtsp_trng] at hc
    simp [hx] at hc

/-- Witness for the amended C4 at a concrete cancelled run. -/
theorem claim4_witness :
    (rtsp_trng sha0 rng0 true [Event.cancel] 32).loopExit = some LoopExit.cancelled
    ∧ ((rtsp_trng sha0 rng0 true [Event.cancel] 32).releases = 1
        ∧ (rtsp_trng sha0 rng0 true [Event.cancel] 32).result
            = ExtractResult.bytes
                ((sha0 (rtsp_trng sha0 rng0 true [Event.cancel] 32).pool).take 32)) := by
  have h : (rtsp_trng sha0 rng0 true [Event.cancel] 32).loopExit
      = some LoopExit.cancelled := by decide
  exact ⟨h, claim4_cancelled_run_returns_pool sha0 rng0 [Event.cancel] 32 h⟩

set_option maxRecDepth 4000 in
/-- Counterexample to C7: a source that always delivers frames, with
`output_length = 32`, but whose single frame arrives after the 5-second
deadline: the digest step runs exactly once, yet a result is produced —
not the at-least-4 digest invocations the claim asserts. -/
theorem claim7_counterexample :
    (rtsp_trng sha0 rng0 true [Event.read (some frame512) 6] 32).digests = 1
    ∧ (rtsp_trng sha0 rng0 true [Event.read (some frame512) 6] 32).loopExit
        = some LoopExit.deadline
    ∧ (rtsp_trng sha0 rng0 true [Event.read (some frame512) 6] 32).result
        = ExtractResult.bytes (List.replicate 32 0) := by
  refine ⟨?_, ?_, ?_⟩ <;>
    simp [rtsp_trng, runLoop, samplePixels, sampleIndices, frame512, sha0]

/-- C7 (amended): collection stops exactly when the termination policy
fires; provided every frame is delivered successfully, with at least 512
pixels, within the 5-second deadline (so the deadline never fires first),
a request for 32 bytes stops by pool size and the digest step has run at
least `ceil(32*4/32) = 4` times before the result is produced. -/
theorem claim7_policy_good_frames (sha256 : List Nat → List Nat)
    (rng : Nat → Nat → Nat) (events : List Event)
    (hsha : ∀ xs, (sha256 xs).length = 32)
    (hgood : ∀ ev ∈ events, goodFast ev)
    (hlen : 4 ≤ events.length) :
    (rtsp_trng sha256 rng true events 32).loopExit = some LoopExit.normal
    ∧ 32 * 4 ≤ (rtsp_trng sha256 rng true events 32).pool.length
    ∧ 4 ≤ (rtsp_trng sha256 rng true events 32).digests
    ∧ ∃ bs, (rtsp_trng sha256 rng true events 32).result = ExtractResult.bytes bs
        ∧ bs.length = 32 := by
  have hnormal := runLoop_goodFast rng 32 hsha events [] 0 0 hgood
    (by simp only [List.length_nil, Nat.zero_add]; omega)
  have hpool := runLoop_normal_pool sha256 rng 32 events [] 0 0 hnormal
  have hpd := runLoop_pool_digests rng 32 hsha events [] 0 0
  refine ⟨?_, ?_, ?_, ?_⟩
  · rw [rtsp_trng]
    simp [hnormal]
  · rw [rtsp_trng]
    simp only [if_true, hnormal]
    exact hpool
  · rw [rtsp_trng]
    simp only [if_true, hnormal]
    simp only [List.length_nil] at hpd
    omega
  · rw [rtsp_trng]
    simp only [if_true, hnormal]
    refine ⟨_, rfl, ?_⟩
    rw [List.length_take, hsha]
    omega

/-- Witness for the amended C7: four prompt 512-pixel frames. -/
theorem claim7_witness :
    (∀ ev ∈ List.replicate 4 (Event.read (some frame512) 0), goodFast ev)
    ∧ 4 ≤ (List.replicate 4 (Event.read (some frame512) 0)).length
    ∧ ((rtsp_trng sha0 rng0 true (List.replicate 4 (Event.read (some frame512) 0)) 32).loopExit
          = some LoopExit.normal
        ∧ 32 * 4 ≤ (rtsp_trng sha0 rng0 true (List.replicate 4 (Event.read (some frame512) 0)) 32).pool.length
        ∧ 4 ≤ (rtsp_trng sha0 rng0 true (List.replicate 4 (Event.read (some frame512) 0)) 32).digests
        ∧ ∃ bs, (rtsp_trng sha0 rng0 true (List.replicate 4 (Event.read (some frame512) 0)) 32).result
              = ExtractResult.bytes bs
            ∧ bs.length = 32) := by
  have hgood : ∀ ev ∈ List.replicate 4 (Event.read (some frame512) 0), goodFast ev := by
    intro ev hev
    rw [List.eq_of_mem_replicate hev]
    constructor
    · simp [frame512]
    · omega
  exact ⟨hgood, by simp,
    claim7_policy_good_frames sha0 rng0 (List.replicate 4 (Event.read (some frame512) 0))
      (fun xs => by simp [sha0]) hgood (by simp)⟩

/-- C10: a successfully read frame whose grayscale buffer has fewer than
512 pixels makes `np.random.choice` raise `ValueError`, which is not
caught by the `except KeyboardInterrupt` clause: the call aborts with an
exception outside the spec's error taxonomy, and the `finally` clause
still releases the frame source. -/
theorem claim10_small_frame_sampling_error (sha256 : List Nat → List Nat)
    (rng : Nat → Nat → Nat) (num_bytes : Nat) (pre rest : List Event)
    (f : Frame) (e : Nat)
    (hpre : ∀ ev ∈ pre, failedRead ev)
    (hsmall : f.gray.length < 512) (hn : 0 < num_bytes) :
    (rtsp_trng sha256 rng true (pre ++ Event.read (some f) e :: rest) num_bytes).result
        = ExtractResult.sampleError
    ∧ (rtsp_trng sha256 rng true (pre ++ Event.read (some f) e :: rest) num_bytes).releases
        = 1 := by
  have h4 : ([] : List Nat).length < num_bytes * 4 := by
    simp
    omega
  have hrun := runLoop_failedReads sha256 rng num_bytes pre hpre
    (Event.read (some f) e :: rest) [] 0 0 h4
  have hstep : runLoop sha256 rng num_bytes (Event.read (some f) e :: rest) []
      (0 + pre.length) 0
      = ⟨LoopExit.sampleFail, [], 0 + pre.length + 1, 0, [[]]⟩ :=
    runLoop_sampleFail h4 (samplePixels_isNone (rng 0) f.gray hsmall)
  rw [hstep] at hrun
  refine ⟨?_, ?_⟩ <;>
    · rw [rtsp_trng]
      simp [hrun]

/-- Witness for C10: a frame with an empty pixel buffer as the very first
event. -/
theorem claim10_witness :
    (∀ ev ∈ ([] : List Event), failedRead ev)
    ∧ (Frame.mk []).gray.length < 512
    ∧ 0 < 32
    ∧ ((rtsp_trng sha0 rng0 true ([] ++ Event.read (some (Frame.mk [])) 0 :: []) 32).result
          = ExtractResult.sampleError
        ∧ (rtsp_trng sha0 rng0 true ([] ++ Event.read (some (Frame.mk [])) 0 :: []) 32).releases
          = 1) :=
  ⟨by simp, by decide, by decide,
    claim10_small_frame_sampling_error sha0 rng0 32 [] [] (Frame.mk []) 0
      (by simp) (by decide) (by decide)⟩

end LPE
